import Mathlib

/-!
A verification development for the Ataulfo marketplace ledger engine.

The repository ships the engine's tests, simulator and API glue; the engine
itself (the Compact contract) is compiled separately.  The definitions below
are therefore modelled from the specification of the ledger/accounting state
machine, and cross-checked against the concrete scenarios asserted by the
repository's acceptance tests (`ataulfo.test.ts`).
-/

namespace Ataulfo

/-- A holder identifier: an opaque identifier for a participant. -/
abbrev HolderId := Nat

/-- Modelled from the spec: a holding identifier is derived deterministically
from `(assetId, HolderId)`; we model the derivation as an injective pairing,
idealising the collision-resistant hash of the implementation. -/
structure HoldingId where
  assetId : Nat
  holder : HolderId
deriving DecidableEq, Repr

/-- Modelled from the spec: an offer identifier is a deterministic hash of
`(publisherHolderId, holdingId, price)`; we model it as an injective pairing,
idealising the collision-resistant hash of the implementation. -/
structure OfferId where
  publisher : HolderId
  holdingId : HoldingId
  price : Nat
deriving DecidableEq, Repr

/-- A stored sale offer. -/
structure Offer where
  publisher : HolderId
  assetId : Nat
  holdingId : HoldingId
  sharesForSale : Nat
  minSharesPerFill : Nat
  price : Nat
  meta : String
deriving DecidableEq, Repr

/-- The error taxonomy of the engine. -/
inductive Err where
  | unauthorized
  | selfFulfillment
  | invalidAsset
  | offerNotFound
  | noAccount
  | invalidPrice
  | invalidFillSize
  | duplicateAsset
  | unsupportedAsset
  | insufficientShares
  | insufficientFunds
  | feeNotCovered
  | nothingToWithdraw
deriving DecidableEq, Repr

/-- Association-list lookup: the value stored at the first occurrence of a key. -/
def lookupK {α β : Type} [DecidableEq α] : List (α × β) → α → Option β
  | [], _ => none
  | (k, v) :: t, a => if k = a then some v else lookupK t a

/-- Remove every entry stored at a key. -/
def eraseK {α β : Type} [DecidableEq α] (a : α) : List (α × β) → List (α × β)
  | [] => []
  | (k, v) :: t => if k = a then eraseK a t else (k, v) :: eraseK a t

/-- Insert-or-replace at a key. -/
def setK {α β : Type} [DecidableEq α] (a : α) (b : β) (l : List (α × β)) : List (α × β) :=
  (a, b) :: eraseK a l

/-- The sum of all stored values. -/
def sumVals {α : Type} : List (α × Nat) → Nat
  | [] => 0
  | (_, v) :: t => v + sumVals t

/-- Boolean membership in a list. -/
def memPair {α : Type} [DecidableEq α] (x : α) : List α → Bool
  | [] => false
  | y :: t => if y = x then true else memPair x t

/-- Add an element if it is absent. -/
def insertPair {α : Type} [DecidableEq α] (x : α) (l : List α) : List α :=
  if memPair x l then l else x :: l

/-- Remove every copy of an element. -/
def removePair {α : Type} [DecidableEq α] (x : α) : List α → List α
  | [] => []
  | y :: t => if y = x then removePair x t else y :: removePair x t

/-- The keys of an association list are pairwise distinct. -/
def NodupKeys {α β : Type} (l : List (α × β)) : Prop :=
  (l.map Prod.fst).Nodup

theorem lookupK_eq_none_iff {α β : Type} [DecidableEq α] (l : List (α × β)) (a : α) :
    lookupK l a = none ↔ a ∉ l.map Prod.fst := by
  induction l with
  | nil => simp [lookupK]
  | cons p t ih =>
    obtain ⟨k, v⟩ := p
    by_cases hk : k = a
    · subst hk; simp [lookupK]
    · simp [lookupK, hk, ih, Ne.symm hk]

theorem eraseK_of_lookupK_none {α β : Type} [DecidableEq α] {l : List (α × β)} {a : α}
    (h : lookupK l a = none) : eraseK a l = l := by
  induction l with
  | nil => rfl
  | cons p t ih =>
    obtain ⟨k, v⟩ := p
    by_cases hk : k = a
    · subst hk; simp [lookupK] at h
    · simp only [lookupK, hk, if_false] at h
      simp [eraseK, hk, ih h]

theorem lookupK_eraseK {α β : Type} [DecidableEq α] (a : α) (l : List (α × β)) :
    lookupK (eraseK a l) a = none := by
  induction l with
  | nil => rfl
  | cons p t ih =>
    obtain ⟨k, v⟩ := p
    by_cases hk : k = a
    · simp [eraseK, hk, ih]
    · simp [eraseK, hk, lookupK, ih]

theorem lookupK_setK_self {α β : Type} [DecidableEq α] (a : α) (b : β) (l : List (α × β)) :
    lookupK (setK a b l) a = some b := by
  simp [setK, lookupK]

theorem lookupK_setK_ne {α β : Type} [DecidableEq α] {a a' : α} (b : β) (l : List (α × β))
    (h : a' ≠ a) : lookupK (setK a b l) a' = lookupK (eraseK a l) a' := by
  simp [setK, lookupK, Ne.symm h]

theorem mem_keys_of_mem_keys_eraseK {α β : Type} [DecidableEq α] {l : List (α × β)} {a x : α}
    (h : x ∈ (eraseK a l).map Prod.fst) : x ∈ l.map Prod.fst := by
  induction l with
  | nil => simp [eraseK] at h
  | cons p t ih =>
    obtain ⟨k, v⟩ := p
    by_cases hk : k = a
    · simp only [eraseK, hk, if_true] at h
      simp [ih h]
    · simp only [eraseK, hk, if_false, List.map_cons, List.mem_cons] at h
      rcases h with h | h
      · simp [h]
      · simp [ih h]

theorem nodupKeys_eraseK {α β : Type} [DecidableEq α] {l : List (α × β)} (a : α)
    (h : NodupKeys l) : NodupKeys (eraseK a l) := by
  induction l with
  | nil => exact h
  | cons p t ih =>
    obtain ⟨k, v⟩ := p
    simp only [NodupKeys, List.map_cons, List.nodup_cons] at h
    by_cases hk : k = a
    · simp only [eraseK, hk, if_true]
      exact ih h.2
    · simp only [eraseK, hk, if_false, NodupKeys, List.map_cons, List.nodup_cons]
      exact ⟨fun hm => h.1 (mem_keys_of_mem_keys_eraseK hm), ih h.2⟩

theorem nodupKeys_setK {α β : Type} [DecidableEq α] {l : List (α × β)} (a : α) (b : β)
    (h : NodupKeys l) : NodupKeys (setK a b l) := by
  simp only [setK, NodupKeys, List.map_cons, List.nodup_cons]
  refine ⟨fun hm => ?_, nodupKeys_eraseK a h⟩
  have := (lookupK_eq_none_iff (eraseK a l) a).1 (lookupK_eraseK a l)
  exact this hm

theorem sumVals_decomp {α : Type} [DecidableEq α] {l : List (α × Nat)} (a : α)
    (h : NodupKeys l) :
    sumVals l = (lookupK l a).getD 0 + sumVals (eraseK a l) := by
  induction l with
  | nil => rfl
  | cons p t ih =>
    obtain ⟨k, v⟩ := p
    simp only [NodupKeys, List.map_cons, List.nodup_cons] at h
    by_cases hk : k = a
    · subst hk
      have ht : lookupK t k = none := (lookupK_eq_none_iff t k).2 h.1
      simp [sumVals, lookupK, eraseK, eraseK_of_lookupK_none ht]
    · simp only [sumVals, lookupK, hk, if_false, eraseK]
      rw [ih h.2]
      omega

theorem length_eraseK_of_lookupK_some {α β : Type} [DecidableEq α] {l : List (α × β)}
    {a : α} {v : β} (h : NodupKeys l) (hv : lookupK l a = some v) :
    (eraseK a l).length + 1 = l.length := by
  induction l with
  | nil => simp [lookupK] at hv
  | cons p t ih =>
    obtain ⟨k, w⟩ := p
    simp only [NodupKeys, List.map_cons, List.nodup_cons] at h
    by_cases hk : k = a
    · subst hk
      have ht : lookupK t k = none := (lookupK_eq_none_iff t k).2 h.1
      simp [eraseK, eraseK_of_lookupK_none ht]
    · simp only [lookupK, hk, if_false] at hv
      simp only [eraseK, hk, if_false, List.length_cons]
      rw [ih h.2 hv]

theorem memPair_insertPair_self {α : Type} [DecidableEq α] (x : α) (l : List α) :
    memPair x (insertPair x l) = true := by
  unfold insertPair
  by_cases h : memPair x l
  · simp [h]
  · simp [h, memPair]

/-- Modelled from the spec: the full engine state.  Assets, holdings, approvals,
accounts, treasury, offers, the operations fee and the contract owner are the
persisted ledger; `accountsTotalBalance` is the running total of all account
balances kept by the ledger; `feesCollected` is the ghost quantity named by the
spec as "the collected, unwithdrawn fee amount". -/
structure EngineState where
  contractOwner : HolderId
  opsFee : Nat
  treasury : Nat
  accounts : List (HolderId × Nat)
  accountsTotalBalance : Nat
  assets : List (Nat × Nat)
  holdings : List (HoldingId × Nat)
  singleApprovals : List (HoldingId × HolderId)
  operatorApprovals : List (HolderId × HolderId)
  offers : List (OfferId × Offer)
  feesCollected : Nat
deriving DecidableEq, Repr

/-- The designated native currency kind. -/
def nativeToken : Nat := 0

/-- The state at deployment: empty ledger, configured owner and fee. -/
def initState (owner : HolderId) (fee : Nat) : EngineState :=
  { contractOwner := owner
    opsFee := fee
    treasury := 0
    accounts := []
    accountsTotalBalance := 0
    assets := []
    holdings := []
    singleApprovals := []
    operatorApprovals := []
    offers := []
    feesCollected := 0 }

/-- Modelled from the spec: deterministic derivation of a holding identifier
from `(assetId, HolderId)` (the contract's `genHoldingId`). -/
def genHoldingId (assetId : Nat) (holder : HolderId) : HoldingId :=
  ⟨assetId, holder⟩

/-- Modelled from the spec: deterministic, pure derivation of an offer
identifier from `(publisherHolderId, holdingId, price)` (the contract's
`genOfferId`). -/
def genOfferId (publisher : HolderId) (holdingId : HoldingId) (price : Nat) : OfferId :=
  ⟨publisher, holdingId, price⟩

/-- Modelled from the spec: `mint(assetId, shares, callerId)` — `Unauthorized`
unless the caller is the contract owner, `DuplicateAsset` if the asset already
has recorded supply, otherwise records the supply and credits the holding
`(assetId, holdingIdOf caller)` with `shares`, returning the holding id. -/
def mint (s : EngineState) (caller : HolderId) (assetId shares : Nat) :
    Except Err (HoldingId × EngineState) :=
  if caller ≠ s.contractOwner then .error .unauthorized
  else match lookupK s.assets assetId with
    | some _ => .error .duplicateAsset
    | none =>
      let h := genHoldingId assetId caller
      let cur := (lookupK s.holdings h).getD 0
      .ok (h, { s with assets := setK assetId shares s.assets
                       holdings := setK h (cur + shares) s.holdings })

/-- Modelled from the spec: `setApproval` — `Unauthorized` unless the caller
owns the holding; sets or clears the single-holding approval flag. -/
def setApproval (s : EngineState) (caller : HolderId) (h : HoldingId)
    (target : HolderId) (approved : Bool) : Except Err (Unit × EngineState) :=
  if caller ≠ h.holder then .error .unauthorized
  else .ok ((),
    { s with singleApprovals :=
        if approved then insertPair (h, target) s.singleApprovals
        else removePair (h, target) s.singleApprovals })

/-- Modelled from the spec: `setApprovalForAll` — sets or clears the operator
flag authorizing `target` to act on all of the caller's holdings. -/
def setApprovalForAll (s : EngineState) (caller target : HolderId)
    (approved : Bool) : EngineState :=
  { s with operatorApprovals :=
      if approved then insertPair (caller, target) s.operatorApprovals
      else removePair (caller, target) s.operatorApprovals }

/-- Modelled from the spec: the caller is authorized to act on a holding when
it is the holding's owner, has single-holding approval on it, or has operator
approval from the holding's owner. -/
def isAuthorizedOnHolding (s : EngineState) (caller : HolderId) (h : HoldingId) : Bool :=
  if caller = h.holder then true
  else if memPair (h, caller) s.singleApprovals then true
  else memPair (h.holder, caller) s.operatorApprovals

/-- Modelled from the spec: `depositFunds(callerId, coinAmount, coinKind)` —
`UnsupportedAsset` unless the coin kind is the native currency,
`FeeNotCovered` unless `coinAmount > OpsFee`; otherwise increases Treasury by
`coinAmount`, credits the caller's account (created if absent) with
`netDeposit = coinAmount - OpsFee`, and returns `(netDeposit, newBalance)`. -/
def depositFunds (s : EngineState) (caller : HolderId) (coinKind coinAmount : Nat) :
    Except Err ((Nat × Nat) × EngineState) :=
  if coinKind ≠ nativeToken then .error .unsupportedAsset
  else if coinAmount ≤ s.opsFee then .error .feeNotCovered
  else
    let net := coinAmount - s.opsFee
    let newBal := (lookupK s.accounts caller).getD 0 + net
    .ok ((net, newBal),
      { s with treasury := s.treasury + coinAmount
               accounts := setK caller newBal s.accounts
               accountsTotalBalance := s.accountsTotalBalance + net
               feesCollected := s.feesCollected + s.opsFee })

/-- Modelled from the spec: `withdrawFunds(callerId, amount)` — `NoAccount` if
the caller has no account, `FeeNotCovered` if `amount <= OpsFee`,
`InsufficientFunds` if the balance is below `amount + OpsFee`; otherwise
decreases Treasury by `amount`, debits the account by `amount + OpsFee`,
prunes the account when the new balance is zero, and returns the new balance. -/
def withdrawFunds (s : EngineState) (caller : HolderId) (amount : Nat) :
    Except Err (Nat × EngineState) :=
  match lookupK s.accounts caller with
  | none => .error .noAccount
  | some bal =>
    if amount ≤ s.opsFee then .error .feeNotCovered
    else if bal < amount + s.opsFee then .error .insufficientFunds
    else
      let newBal := bal - (amount + s.opsFee)
      .ok (newBal,
        { s with treasury := s.treasury - amount
                 accounts := if newBal = 0 then eraseK caller s.accounts
                             else setK caller newBal s.accounts
                 accountsTotalBalance := s.accountsTotalBalance - (amount + s.opsFee)
                 feesCollected := s.feesCollected + s.opsFee })

/-- Modelled from the spec: `withdrawCollectedFees(callerId)` — `Unauthorized`
unless the caller is the contract owner; computes the collected fees as the
gap between the Treasury and the running total of account balances,
`NothingToWithdraw` when the gap is zero, otherwise removes the gap from the
Treasury and returns it. -/
def withdrawCollectedFees (s : EngineState) (caller : HolderId) :
    Except Err (Nat × EngineState) :=
  if caller ≠ s.contractOwner then .error .unauthorized
  else
    let collected := s.treasury - s.accountsTotalBalance
    if collected = 0 then .error .nothingToWithdraw
    else .ok (collected,
      { s with treasury := s.treasury - collected
               feesCollected := s.feesCollected - collected })

/-- Modelled from the spec: `createOffer` — `InvalidPrice` if the price is not
positive, `Unauthorized` unless the caller is the holding's owner or has
operator or single-holding approval on it; otherwise stores (replacing any
offer at the same derived id) and returns the id. -/
def createOffer (s : EngineState) (caller : HolderId) (assetId : Nat)
    (holdingId : HoldingId) (shares minShares price : Nat) (meta : String) :
    Except Err (OfferId × EngineState) :=
  if price = 0 then .error .invalidPrice
  else if ¬ isAuthorizedOnHolding s caller holdingId then .error .unauthorized
  else
    let oid := genOfferId caller holdingId price
    let off : Offer := ⟨caller, assetId, holdingId, shares, minShares, price, meta⟩
    .ok (oid, { s with offers := setK oid off s.offers })

/-- Modelled from the spec: `cancelOffer` — `OfferNotFound` if absent,
`Unauthorized` unless the caller is the offer's publisher or the underlying
holding's owner; removes and returns the offer. -/
def cancelOffer (s : EngineState) (caller : HolderId) (oid : OfferId) :
    Except Err (Offer × EngineState) :=
  match lookupK s.offers oid with
  | none => .error .offerNotFound
  | some off =>
    if caller = off.publisher ∨ caller = off.holdingId.holder then
      .ok (off, { s with offers := eraseK oid s.offers })
    else .error .unauthorized

/-- Modelled from the spec and the acceptance tests: `fulfillOffer` —
`OfferNotFound` if absent, `SelfFulfillment` if the caller is the publisher,
`NoAccount` / `InsufficientFunds` against the buyer's account,
`InvalidFillSize` against the fill bounds, `InsufficientShares` against the
publisher's holding; on success debits the buyer by
`price * shares + OpsFee`, pays the publisher directly from the Treasury
(`price * shares` leaves the Treasury), transfers the shares, removes the
offer (the acceptance tests assert full removal) and returns the
pre-fulfillment offer.  The funds threshold is the debited amount
`price * shares + OpsFee`, as pinned by the acceptance test in which a buyer
with balance `price` is rejected and a buyer with balance `price + opsFee`
succeeds. -/
def fulfillOffer (s : EngineState) (caller : HolderId) (oid : OfferId) (shares : Nat) :
    Except Err (Offer × EngineState) :=
  match lookupK s.offers oid with
  | none => .error .offerNotFound
  | some off =>
    if caller = off.publisher then .error .selfFulfillment
    else match lookupK s.accounts caller with
      | none => .error .noAccount
      | some bal =>
        if shares < off.minSharesPerFill ∨ off.sharesForSale < shares then
          .error .invalidFillSize
        else if bal < off.price * shares + s.opsFee then .error .insufficientFunds
        else
          let pubShares := (lookupK s.holdings off.holdingId).getD 0
          if pubShares < shares then .error .insufficientShares
          else
            let newBal := bal - (off.price * shares + s.opsFee)
            let holdings1 := setK off.holdingId (pubShares - shares) s.holdings
            let buyerHolding := genHoldingId off.assetId caller
            let buyerShares := (lookupK holdings1 buyerHolding).getD 0
            .ok (off,
              { s with treasury := s.treasury - off.price * shares
                       accounts := setK caller newBal s.accounts
                       accountsTotalBalance :=
                         s.accountsTotalBalance - (off.price * shares + s.opsFee)
                       feesCollected := s.feesCollected + s.opsFee
                       holdings := setK buyerHolding (buyerShares + shares) holdings1
                       offers := eraseK oid s.offers })

/-- One engine operation together with its arguments. -/
inductive Op where
  | mint (caller : HolderId) (assetId shares : Nat)
  | createOffer (caller : HolderId) (assetId : Nat) (holdingId : HoldingId)
      (shares minShares price : Nat) (meta : String)
  | cancelOffer (caller : HolderId) (oid : OfferId)
  | fulfillOffer (caller : HolderId) (oid : OfferId) (shares : Nat)
  | depositFunds (caller : HolderId) (coinKind coinAmount : Nat)
  | withdrawFunds (caller : HolderId) (amount : Nat)
  | withdrawCollectedFees (caller : HolderId)
  | setApproval (caller : HolderId) (h : HoldingId) (target : HolderId) (approved : Bool)
  | setApprovalForAll (caller target : HolderId) (approved : Bool)

/-- The state produced by a successful circuit call, if any. -/
def nextState {α : Type} : Except Err (α × EngineState) → Option EngineState
  | .ok (_, s') => some s'
  | .error _ => none

/-- The result value of a successful circuit call, if any. -/
def resVal {α : Type} : Except Err (α × EngineState) → Option α
  | .ok (r, _) => some r
  | .error _ => none

/-- Apply one operation: `some` of the new state when it succeeds, `none` when
it rejects (a rejected operation never mutates the state). -/
def stepOp (s : EngineState) : Op → Option EngineState
  | .mint c a sh => nextState (mint s c a sh)
  | .createOffer c a h sh mn pr m => nextState (createOffer s c a h sh mn pr m)
  | .cancelOffer c oid => nextState (cancelOffer s c oid)
  | .fulfillOffer c oid sh => nextState (fulfillOffer s c oid sh)
  | .depositFunds c k amt => nextState (depositFunds s c k amt)
  | .withdrawFunds c amt => nextState (withdrawFunds s c amt)
  | .withdrawCollectedFees c => nextState (withdrawCollectedFees s c)
  | .setApproval c h t ap => nextState (setApproval s c h t ap)
  | .setApprovalForAll c t ap => some (setApprovalForAll s c t ap)

/-- Run a sequence of operations; a rejected operation leaves the state
unchanged (failures are atomic rejections). -/
def runOps (s : EngineState) : List Op → EngineState
  | [] => s
  | o :: rest => runOps ((stepOp s o).getD s) rest

/-- The states reachable from the deployment of a marketplace with the given
owner and operations fee by any sequence of successful engine operations. -/
inductive Reachable (owner : HolderId) (fee : Nat) : EngineState → Prop
  | init : Reachable owner fee (initState owner fee)
  | step {s s' : EngineState} {o : Op} :
      Reachable owner fee s → stepOp s o = some s' → Reachable owner fee s'

theorem reachable_runOps {owner : HolderId} {fee : Nat} {s : EngineState}
    (h : Reachable owner fee s) (ops : List Op) :
    Reachable owner fee (runOps s ops) := by
  induction ops generalizing s with
  | nil => exact h
  | cons o rest ih =>
    cases hs : stepOp s o with
    | none => simpa [runOps, hs] using ih h
    | some s' => simpa [runOps, hs] using ih (Reachable.step h hs)

/-- The accounting invariant: account keys are distinct, the running total
matches the accounts, and the Treasury equals the accounts total plus the
collected, unwithdrawn fees. -/
def Inv (s : EngineState) : Prop :=
  NodupKeys s.accounts ∧
  s.accountsTotalBalance = sumVals s.accounts ∧
  s.treasury = sumVals s.accounts + s.feesCollected

theorem inv_init (owner : HolderId) (fee : Nat) : Inv (initState owner fee) := by
  refine ⟨?_, rfl, rfl⟩
  simp [initState, NodupKeys]

theorem inv_step {s s' : EngineState} {o : Op} (h : Inv s) (hs : stepOp s o = some s') :
    Inv s' := by
  obtain ⟨hnd, hatb, htr⟩ := h
  cases o with
  | mint c a sh =>
    simp only [stepOp, mint] at hs
    split at hs
    · simp [nextState] at hs
    · split at hs
      · simp [nextState] at hs
      · simp only [nextState, Option.some.injEq] at hs
        subst hs
        exact ⟨hnd, hatb, htr⟩
  | createOffer c a hld sh mn pr m =>
    simp only [stepOp, createOffer] at hs
    split at hs
    · simp [nextState] at hs
    · split at hs
      · simp [nextState] at hs
      · simp only [nextState, Option.some.injEq] at hs
        subst hs
        exact ⟨hnd, hatb, htr⟩
  | cancelOffer c oid =>
    simp only [stepOp, cancelOffer] at hs
    split at hs
    · simp [nextState] at hs
    · split at hs
      · simp only [nextState, Option.some.injEq] at hs
        subst hs
        exact ⟨hnd, hatb, htr⟩
      · simp [nextState] at hs
  | fulfillOffer c oid sh =>
    simp only [stepOp, fulfillOffer] at hs
    split at hs
    · simp [nextState] at hs
    case _ off hoff =>
      split at hs
      · simp [nextState] at hs
      · split at hs
        · simp [nextState] at hs
        case _ bal hacc =>
          split at hs
          · simp [nextState] at hs
          · split at hs
            · simp [nextState] at hs
            · split at hs
              · simp [nextState] at hs
              · simp only [nextState, Option.some.injEq] at hs
                subst hs
                have hdec := sumVals_decomp c hnd
                rw [hacc] at hdec
                simp only [Option.getD_some] at hdec
                refine ⟨nodupKeys_setK c _ hnd, ?_, ?_⟩ <;>
                  simp only [setK, sumVals] <;> omega
  | depositFunds c k amt =>
    simp only [stepOp, depositFunds] at hs
    split at hs
    · simp [nextState] at hs
    · split at hs
      · simp [nextState] at hs
      · simp only [nextState, Option.some.injEq] at hs
        subst hs
        have hdec := sumVals_decomp c hnd
        refine ⟨nodupKeys_setK c _ hnd, ?_, ?_⟩ <;>
          simp only [setK, sumVals] <;> omega
  | withdrawFunds c amt =>
    simp only [stepOp, withdrawFunds] at hs
    split at hs
    · simp [nextState] at hs
    case _ bal hacc =>
      split at hs
      · simp [nextState] at hs
      · split at hs
        · simp [nextState] at hs
        · simp only [nextState, Option.some.injEq] at hs
          subst hs
          have hdec := sumVals_decomp c hnd
          rw [hacc] at hdec
          simp only [Option.getD_some] at hdec
          by_cases hz : bal - (amt + s.opsFee) = 0
          · refine ⟨?_, ?_, ?_⟩ <;> simp only [if_pos hz]
            · exact nodupKeys_eraseK c hnd
            · omega
            · omega
          · refine ⟨?_, ?_, ?_⟩ <;> simp only [if_neg hz]
            · exact nodupKeys_setK c _ hnd
            · simp only [setK, sumVals]; omega
            · simp only [setK, sumVals]; omega
  | withdrawCollectedFees c =>
    simp only [stepOp, withdrawCollectedFees] at hs
    split at hs
    · simp [nextState] at hs
    · split at hs
      · simp [nextState] at hs
      · simp only [nextState, Option.some.injEq] at hs
        subst hs
        exact ⟨hnd, hatb, by simp only []; omega⟩
  | setApproval c hld t ap =>
    simp only [stepOp, setApproval] at hs
    split at hs
    · simp [nextState] at hs
    · simp only [nextState, Option.some.injEq] at hs
      subst hs
      exact ⟨hnd, hatb, htr⟩
  | setApprovalForAll c t ap =>
    simp only [stepOp, setApprovalForAll, Option.some.injEq] at hs
    subst hs
    exact ⟨hnd, hatb, htr⟩

theorem reachable_inv {owner : HolderId} {fee : Nat} {s : EngineState}
    (h : Reachable owner fee s) : Inv s := by
  induction h with
  | init => exact inv_init owner fee
  | step _ hs ih => exact inv_step ih hs

theorem length_setK_of_some {α β : Type} [DecidableEq α] {l : List (α × β)} {a : α}
    {v : β} (b : β) (hnd : NodupKeys l) (h : lookupK l a = some v) :
    (setK a b l).length = l.length := by
  simp only [setK, List.length_cons]
  exact length_eraseK_of_lookupK_some hnd h

theorem length_setK_of_none {α β : Type} [DecidableEq α] {l : List (α × β)} {a : α}
    (b : β) (h : lookupK l a = none) :
    (setK a b l).length = l.length + 1 := by
  simp [setK, eraseK_of_lookupK_none h]

theorem createOffer_ok {s : EngineState} {caller : HolderId} {assetId : Nat}
    {hld : HoldingId} {sh mn pr : Nat} {meta : String} {oid : OfferId} {s1 : EngineState}
    (h : createOffer s caller assetId hld sh mn pr meta = .ok (oid, s1)) :
    oid = genOfferId caller hld pr ∧
    s1 = { s with offers := setK (genOfferId caller hld pr) (Offer.mk caller assetId hld sh mn pr meta) s.offers } := by
  unfold createOffer at h
  split at h
  · exact absurd h (by simp)
  · split at h
    · exact absurd h (by simp)
    · simp only [Except.ok.injEq, Prod.mk.injEq] at h
      exact ⟨h.1.symm, h.2.symm⟩

/-- Claim C1: in every state reachable from the initial deployment by any
sequence of engine operations, the treasury value is greater than or equal to
the sum of all account balances, with equality iff no collected fees are
outstanding; the difference is exactly the collected, unwithdrawn fee amount. -/
theorem c1_treasury_invariant (owner : HolderId) (fee : Nat) (s : EngineState)
    (h : Reachable owner fee s) :
    sumVals s.accounts ≤ s.treasury ∧
    (s.treasury = sumVals s.accounts ↔ s.feesCollected = 0) ∧
    s.treasury - sumVals s.accounts = s.feesCollected := by
  obtain ⟨-, -, htr⟩ := reachable_inv h
  omega

/-- Witness for C1 at a concrete reachable state: after a deposit of 400 with
fee 1 the treasury (400) exceeds the accounts total (399) by the collected
fee (1). -/
theorem c1_witness :
    sumVals (runOps (initState 0 1) [Op.depositFunds 4 nativeToken 400]).accounts ≤
      (runOps (initState 0 1) [Op.depositFunds 4 nativeToken 400]).treasury ∧
    ((runOps (initState 0 1) [Op.depositFunds 4 nativeToken 400]).treasury =
        sumVals (runOps (initState 0 1) [Op.depositFunds 4 nativeToken 400]).accounts ↔
      (runOps (initState 0 1) [Op.depositFunds 4 nativeToken 400]).feesCollected = 0) ∧
    (runOps (initState 0 1) [Op.depositFunds 4 nativeToken 400]).treasury -
        sumVals (runOps (initState 0 1) [Op.depositFunds 4 nativeToken 400]).accounts =
      (runOps (initState 0 1) [Op.depositFunds 4 nativeToken 400]).feesCollected :=
  c1_treasury_invariant 0 1 _ (reachable_runOps Reachable.init _)

/-- Claim C3: `depositFunds` fails with `UnsupportedAsset` unless the coin
kind is the native currency, fails with `FeeNotCovered` unless
`coinAmount > OpsFee`, and otherwise increases the Treasury by `coinAmount`,
credits the caller's account (created if absent) with
`netDeposit = coinAmount - OpsFee`, and returns `(netDeposit, newBalance)`. -/
theorem c3_depositFunds_spec (s : EngineState) (caller : HolderId) (kind amount : Nat) :
    (kind ≠ nativeToken → depositFunds s caller kind amount = .error .unsupportedAsset) ∧
    (kind = nativeToken → amount ≤ s.opsFee →
      depositFunds s caller kind amount = .error .feeNotCovered) ∧
    (kind = nativeToken → s.opsFee < amount →
      resVal (depositFunds s caller kind amount) =
        some (amount - s.opsFee, (lookupK s.accounts caller).getD 0 + (amount - s.opsFee)) ∧
      (nextState (depositFunds s caller kind amount)).map EngineState.treasury =
        some (s.treasury + amount) ∧
      (nextState (depositFunds s caller kind amount)).map (fun t => lookupK t.accounts caller) =
        some (some ((lookupK s.accounts caller).getD 0 + (amount - s.opsFee)))) := by
  refine ⟨?_, ?_, ?_⟩
  · intro hk
    simp [depositFunds, hk]
  · intro hk hf
    simp [depositFunds, hk, hf]
  · intro hk hf
    subst hk
    have hnf : ¬ amount ≤ s.opsFee := by omega
    simp [depositFunds, hnf, resVal, nextState, lookupK_setK_self]

/-- Witness for C3, the spec's acceptance scenario: starting from an empty
account with `OpsFee = 1`, `depositFunds(native, 400)` yields
`(deposited = 399, balance = 399)` and Treasury `400`. -/
theorem c3_witness :
    resVal (depositFunds (initState 0 1) 7 nativeToken 400) = some (399, 399) ∧
    (nextState (depositFunds (initState 0 1) 7 nativeToken 400)).map EngineState.treasury =
      some 400 ∧
    (nextState (depositFunds (initState 0 1) 7 nativeToken 400)).map
        (fun t => lookupK t.accounts 7) = some (some 399) := by
  have h := (c3_depositFunds_spec (initState 0 1) 7 nativeToken 400).2.2 rfl (by decide)
  exact ⟨h.1, h.2.1, h.2.2⟩

/-- Claim C4: `withdrawFunds` fails with `NoAccount` if the caller has no
account, with `FeeNotCovered` if `amount <= OpsFee`, with
`InsufficientFunds` if the balance is below `amount + OpsFee`, and otherwise
decreases the Treasury by `amount`, debits the account by `amount + OpsFee`,
prunes the account when the resulting balance is zero, and returns the new
balance. -/
theorem c4_withdrawFunds_spec (s : EngineState) (caller : HolderId) (amount : Nat) :
    (lookupK s.accounts caller = none → withdrawFunds s caller amount = .error .noAccount) ∧
    (∀ bal, lookupK s.accounts caller = some bal → amount ≤ s.opsFee →
      withdrawFunds s caller amount = .error .feeNotCovered) ∧
    (∀ bal, lookupK s.accounts caller = some bal → s.opsFee < amount →
      bal < amount + s.opsFee → withdrawFunds s caller amount = .error .insufficientFunds) ∧
    (∀ bal, lookupK s.accounts caller = some bal → s.opsFee < amount →
      amount + s.opsFee ≤ bal →
      resVal (withdrawFunds s caller amount) = some (bal - (amount + s.opsFee)) ∧
      (nextState (withdrawFunds s caller amount)).map EngineState.treasury =
        some (s.treasury - amount) ∧
      (nextState (withdrawFunds s caller amount)).map (fun t => lookupK t.accounts caller) =
        some (if bal - (amount + s.opsFee) = 0 then none
              else some (bal - (amount + s.opsFee)))) := by
  refine ⟨?_, ?_, ?_, ?_⟩
  · intro hn
    simp [withdrawFunds, hn]
  · intro bal hb hf
    simp [withdrawFunds, hb, hf]
  · intro bal hb hf hlt
    have hnf : ¬ amount ≤ s.opsFee := by omega
    simp [withdrawFunds, hb, hnf, hlt]
  · intro bal hb hf hge
    have hnf : ¬ amount ≤ s.opsFee := by omega
    have hnlt : ¬ bal < amount + s.opsFee := by omega
    by_cases hz : bal - (amount + s.opsFee) = 0
    · simp [withdrawFunds, hb, hnf, hnlt, hz, resVal, nextState, lookupK_eraseK]
    · simp [withdrawFunds, hb, hnf, hnlt, hz, resVal, nextState, lookupK_setK_self]

/-- Witness for C4, the spec's acceptance scenario: after depositing 400 with
fee 1 the balance is 399; `withdrawFunds(250)` returns balance
`399 - 250 - 1 = 148` and leaves Treasury `400 - 250 = 150`. -/
theorem c4_witness :
    lookupK (runOps (initState 0 1) [Op.depositFunds 0 nativeToken 400]).accounts 0 =
      some 399 ∧
    resVal (withdrawFunds (runOps (initState 0 1) [Op.depositFunds 0 nativeToken 400]) 0 250) =
      some 148 ∧
    (nextState (withdrawFunds (runOps (initState 0 1) [Op.depositFunds 0 nativeToken 400]) 0
        250)).map EngineState.treasury = some 150 ∧
    (nextState (withdrawFunds (runOps (initState 0 1) [Op.depositFunds 0 nativeToken 400]) 0
        250)).map (fun t => lookupK t.accounts 0) = some (some 148) := by
  have h := (c4_withdrawFunds_spec (runOps (initState 0 1) [Op.depositFunds 0 nativeToken 400])
    0 250).2.2.2 399 rfl (by decide) (by decide)
  exact ⟨rfl, h.1, h.2.1, h.2.2⟩

/-- Claim C9 counterexample: a caller with no account calling
`withdrawFunds` with `amount <= OpsFee` (here `amount = 1 = OpsFee`) is
rejected with `NoAccount`, not `FeeNotCovered` — the account check comes
first in the engine. -/
theorem c9_counterexample :
    (1 : Nat) ≤ (initState 0 1).opsFee ∧
    lookupK (initState 0 1).accounts 7 = none ∧
    withdrawFunds (initState 0 1) 7 1 = .error .noAccount ∧
    Err.noAccount ≠ Err.feeNotCovered := by
  exact ⟨by decide, rfl, rfl, by decide⟩

/-- Claim C9 (amended): for every caller that has an account and every
`amount <= OpsFee`, `withdrawFunds` fails with `FeeNotCovered` regardless of
the balance; a caller with no account fails with `NoAccount` instead. -/
theorem c9_withdraw_fee_amended (s : EngineState) (caller : HolderId) (amount : Nat) :
    (∀ bal, lookupK s.accounts caller = some bal → amount ≤ s.opsFee →
      withdrawFunds s caller amount = .error .feeNotCovered) ∧
    (lookupK s.accounts caller = none →
      withdrawFunds s caller amount = .error .noAccount) := by
  refine ⟨?_, ?_⟩
  · intro bal hb hf
    simp [withdrawFunds, hb, hf]
  · intro hn
    simp [withdrawFunds, hn]

/-- Witness for the amended C9: a caller whose balance (399) would amply
cover the amount still gets `FeeNotCovered` for `amount = 1 = OpsFee`. -/
theorem c9_witness :
    withdrawFunds (runOps (initState 0 1) [Op.depositFunds 0 nativeToken 400]) 0 1 =
      .error .feeNotCovered :=
  (c9_withdraw_fee_amended (runOps (initState 0 1) [Op.depositFunds 0 nativeToken 400])
    0 1).1 399 rfl (by decide)

/-- Claim C5: `withdrawCollectedFees` fails with `Unauthorized` for every
caller other than the contract owner; for the owner it fails with
`NothingToWithdraw` when the Treasury equals the sum of account balances, and
otherwise returns exactly `Treasury - sum(accounts)`, decreases the Treasury
by that amount, and leaves the Treasury equal to the sum of account balances
afterward. -/
theorem c5_withdrawCollectedFees_spec (owner : HolderId) (fee : Nat) (s : EngineState)
    (h : Reachable owner fee s) (caller : HolderId) :
    (caller ≠ s.contractOwner →
      withdrawCollectedFees s caller = .error .unauthorized) ∧
    (caller = s.contractOwner → s.treasury = sumVals s.accounts →
      withdrawCollectedFees s caller = .error .nothingToWithdraw) ∧
    (caller = s.contractOwner → s.treasury ≠ sumVals s.accounts →
      resVal (withdrawCollectedFees s caller) = some (s.treasury - sumVals s.accounts) ∧
      (nextState (withdrawCollectedFees s caller)).map EngineState.treasury =
        some (sumVals s.accounts) ∧
      (nextState (withdrawCollectedFees s caller)).map (fun t => sumVals t.accounts) =
        some (sumVals s.accounts)) := by
  obtain ⟨-, hatb, htr⟩ := reachable_inv h
  refine ⟨?_, ?_, ?_⟩
  · intro hne
    simp [withdrawCollectedFees, hne]
  · intro hc heq
    have hz : s.treasury - s.accountsTotalBalance = 0 := by omega
    simp [withdrawCollectedFees, hc, hz]
  · intro hc hne
    have hz : ¬ (s.treasury - s.accountsTotalBalance = 0) := by omega
    have he1 : s.treasury - s.accountsTotalBalance = s.treasury - sumVals s.accounts := by
      rw [hatb]
    have he2 : s.treasury - (s.treasury - s.accountsTotalBalance) = sumVals s.accounts := by
      rw [hatb]
      omega
    have hcall : withdrawCollectedFees s caller =
        .ok (s.treasury - s.accountsTotalBalance,
          { s with treasury := s.treasury - (s.treasury - s.accountsTotalBalance)
                   feesCollected := s.feesCollected - (s.treasury - s.accountsTotalBalance) }) := by
      simp only [withdrawCollectedFees]
      rw [if_neg (by simp [hc]), if_neg hz]
    refine ⟨?_, ?_, ?_⟩
    · rw [hcall]
      simp only [resVal, Option.some.injEq]
      exact he1
    · rw [hcall]
      simp only [nextState, Option.map_some']
      exact congrArg some he2
    · rw [hcall]
      simp only [nextState, Option.map_some']

/-- Witness for C5 at a concrete reachable state: after the owner (3)
deposits 2 with fee 1, the treasury is 2 and the accounts total 1; a
non-owner (9) is rejected with `Unauthorized`, and the owner withdraws
exactly 1, leaving treasury 1 = accounts total. -/
theorem c5_witness :
    withdrawCollectedFees (runOps (initState 3 1) [Op.depositFunds 3 nativeToken 2]) 9 =
      .error .unauthorized ∧
    resVal (withdrawCollectedFees (runOps (initState 3 1) [Op.depositFunds 3 nativeToken 2]) 3) =
      some 1 ∧
    (nextState (withdrawCollectedFees (runOps (initState 3 1)
        [Op.depositFunds 3 nativeToken 2]) 3)).map EngineState.treasury = some 1 ∧
    (nextState (withdrawCollectedFees (runOps (initState 3 1)
        [Op.depositFunds 3 nativeToken 2]) 3)).map (fun t => sumVals t.accounts) = some 1 := by
  have hr : Reachable 3 1 (runOps (initState 3 1) [Op.depositFunds 3 nativeToken 2]) :=
    reachable_runOps Reachable.init _
  have h1 := (c5_withdrawCollectedFees_spec 3 1 _ hr 9).1 (by decide)
  have h2 := (c5_withdrawCollectedFees_spec 3 1 _ hr 3).2.2 rfl (by decide)
  exact ⟨h1, h2.1, h2.2.1, h2.2.2⟩

/-- Claim C8: `mint` fails with `Unauthorized` unless the caller is the
contract owner, fails with `DuplicateAsset` if the asset already has recorded
supply (even when invoked by the owner), and otherwise creates the asset with
total supply `shares`, credits the holding `(assetId, holdingIdOf caller)`
with `shares`, and returns the minted holding id. -/
theorem c8_mint_spec (s : EngineState) (caller : HolderId) (assetId shares : Nat) :
    (caller ≠ s.contractOwner → mint s caller assetId shares = .error .unauthorized) ∧
    (∀ sup, lookupK s.assets assetId = some sup → caller = s.contractOwner →
      mint s caller assetId shares = .error .duplicateAsset) ∧
    (caller = s.contractOwner → lookupK s.assets assetId = none →
      resVal (mint s caller assetId shares) = some (genHoldingId assetId caller) ∧
      (nextState (mint s caller assetId shares)).map (fun t => lookupK t.assets assetId) =
        some (some shares) ∧
      (nextState (mint s caller assetId shares)).map
          (fun t => lookupK t.holdings (genHoldingId assetId caller)) =
        some (some ((lookupK s.holdings (genHoldingId assetId caller)).getD 0 + shares))) := by
  refine ⟨?_, ?_, ?_⟩
  · intro hne
    simp [mint, hne]
  · intro sup hsup hc
    simp [mint, hc, hsup]
  · intro hc hnone
    simp [mint, hc, hnone, resVal, nextState, lookupK_setK_self]

/-- Witness for C8: the owner (0) mints asset 5 with supply 10 and receives
holding `(5, 0)` credited with 10; minting asset 5 again — still as the
owner — fails with `DuplicateAsset`; a non-owner (1) fails with
`Unauthorized`. -/
theorem c8_witness :
    resVal (mint (initState 0 1) 0 5 10) = some (genHoldingId 5 0) ∧
    (nextState (mint (initState 0 1) 0 5 10)).map (fun t => lookupK t.assets 5) =
      some (some 10) ∧
    (nextState (mint (initState 0 1) 0 5 10)).map
        (fun t => lookupK t.holdings (genHoldingId 5 0)) = some (some 10) ∧
    mint (runOps (initState 0 1) [Op.mint 0 5 10]) 0 5 3 = .error .duplicateAsset ∧
    mint (runOps (initState 0 1) [Op.mint 0 5 10]) 1 6 1 = .error .unauthorized := by
  have h1 := (c8_mint_spec (initState 0 1) 0 5 10).2.2 rfl rfl
  have h2 := (c8_mint_spec (runOps (initState 0 1) [Op.mint 0 5 10]) 0 5 3).2.1 10 rfl rfl
  have h3 := (c8_mint_spec (runOps (initState 0 1) [Op.mint 0 5 10]) 1 6 1).1 (by decide)
  exact ⟨h1.1, h1.2.1, h1.2.2, h2, h3⟩

/-- Claim C7: `createOffer` fails with `InvalidPrice` if `price <= 0` and
with `Unauthorized` unless the caller is the holding's owner or has operator
or single-holding approval on it; a failed `createOffer` stores no offer;
after the holding's owner grants the caller operator approval, the identical
call succeeds. -/
theorem c7_createOffer_auth (s : EngineState) (caller : HolderId) (assetId : Nat)
    (hld : HoldingId) (shares minShares price : Nat) (meta : String) :
    (price = 0 →
      createOffer s caller assetId hld shares minShares price meta = .error .invalidPrice) ∧
    (0 < price → caller ≠ hld.holder →
      memPair (hld, caller) s.singleApprovals = false →
      memPair (hld.holder, caller) s.operatorApprovals = false →
      createOffer s caller assetId hld shares minShares price meta = .error .unauthorized) ∧
    (∀ e, createOffer s caller assetId hld shares minShares price meta = .error e →
      ((stepOp s (Op.createOffer caller assetId hld shares minShares price meta)).getD
        s).offers = s.offers) ∧
    (0 < price →
      resVal (createOffer (setApprovalForAll s hld.holder caller true) caller assetId hld
          shares minShares price meta) = some (genOfferId caller hld price) ∧
      (nextState (createOffer (setApprovalForAll s hld.holder caller true) caller assetId hld
          shares minShares price meta)).map
          (fun t => lookupK t.offers (genOfferId caller hld price)) =
        some (some (Offer.mk caller assetId hld shares minShares price meta))) := by
  refine ⟨?_, ?_, ?_, ?_⟩
  · intro hp
    simp [createOffer, hp]
  · intro hp hne hs1 hs2
    have hp0 : ¬ (price = 0) := by omega
    simp [createOffer, hp0, isAuthorizedOnHolding, hne, hs1, hs2]
  · intro e he
    simp [stepOp, he, nextState]
  · intro hp
    have hp0 : ¬ (price = 0) := by omega
    have hauth : isAuthorizedOnHolding (setApprovalForAll s hld.holder caller true)
        caller hld = true := by
      unfold isAuthorizedOnHolding setApprovalForAll
      by_cases hc : caller = hld.holder
      · simp [hc]
      · by_cases hs1 : memPair (hld, caller) s.singleApprovals
        · simp [hc, hs1]
        · simp [hc, hs1, memPair_insertPair_self]
    simp [createOffer, hp0, hauth, resVal, nextState, lookupK_setK_self]

/-- Witness for C7, the spec's acceptance scenario: caller 2 is neither the
owner (4) of holding `(5, 4)` nor approved, so `createOffer` is rejected with
`Unauthorized` (and stores nothing); after the owner grants operator approval
to 2, the identical call succeeds and stores the offer. -/
theorem c7_witness :
    createOffer (initState 0 1) 2 5 (HoldingId.mk 5 4) 1 1 70 "m" = .error .unauthorized ∧
    ((stepOp (initState 0 1) (Op.createOffer 2 5 (HoldingId.mk 5 4) 1 1 70 "m")).getD
      (initState 0 1)).offers = (initState 0 1).offers ∧
    resVal (createOffer (setApprovalForAll (initState 0 1) 4 2 true) 2 5
        (HoldingId.mk 5 4) 1 1 70 "m") = some (genOfferId 2 (HoldingId.mk 5 4) 70) ∧
    (nextState (createOffer (setApprovalForAll (initState 0 1) 4 2 true) 2 5
        (HoldingId.mk 5 4) 1 1 70 "m")).map
        (fun t => lookupK t.offers (genOfferId 2 (HoldingId.mk 5 4) 70)) =
      some (some (Offer.mk 2 5 (HoldingId.mk 5 4) 1 1 70 "m")) := by
  have h := c7_createOffer_auth (initState 0 1) 2 5 (HoldingId.mk 5 4) 1 1 70 "m"
  have h1 := h.2.1 (by decide) (by decide) rfl rfl
  have h2 := h.2.2.1 Err.unauthorized h1
  have h3 := h.2.2.2 (by decide)
  exact ⟨h1, h2, h3.1, h3.2⟩

/-- Claim C6: `genOfferId` is a pure function of
`(publisher, holdingId, price)` — identical arguments give identical output
and changing any one argument changes the output — and consequently a second
`createOffer` by the same publisher for the same holding at the same price
overwrites the stored offer (the stored offer reflects the second call's
data, the offer count is unchanged), while a fresh id adds an offer. -/
theorem c6_genOfferId_replace (p p' : HolderId) (hld hld' : HoldingId) (pr pr' : Nat)
    (s : EngineState) (caller : HolderId) (assetId : Nat) (sh mn sh' mn' : Nat)
    (meta meta' : String) :
    (genOfferId p hld pr = genOfferId p hld pr) ∧
    (genOfferId p hld pr = genOfferId p' hld' pr' ↔ (p = p' ∧ hld = hld' ∧ pr = pr')) ∧
    (∀ oid s1 oid' s2, NodupKeys s.offers →
      createOffer s caller assetId hld sh mn pr meta = .ok (oid, s1) →
      createOffer s1 caller assetId hld sh' mn' pr meta' = .ok (oid', s2) →
      oid' = oid ∧
      lookupK s2.offers oid = some (Offer.mk caller assetId hld sh' mn' pr meta') ∧
      s2.offers.length = s1.offers.length) ∧
    (∀ oid s1, createOffer s caller assetId hld sh mn pr meta = .ok (oid, s1) →
      (lookupK s.offers oid = none → s1.offers.length = s.offers.length + 1) ∧
      (∀ off0, NodupKeys s.offers → lookupK s.offers oid = some off0 →
        s1.offers.length = s.offers.length)) := by
  refine ⟨rfl, ?_, ?_, ?_⟩
  · simp [genOfferId, OfferId.mk.injEq]
  · intro oid s1 oid' s2 hnd h1 h2
    obtain ⟨ho1, hs1⟩ := createOffer_ok h1
    obtain ⟨ho2, hs2⟩ := createOffer_ok h2
    subst ho1
    subst ho2
    refine ⟨rfl, ?_, ?_⟩
    · rw [hs2]
      exact lookupK_setK_self _ _ _
    · rw [hs2, hs1]
      have hnd1 : NodupKeys (setK (genOfferId caller hld pr)
          (Offer.mk caller assetId hld sh mn pr meta) s.offers) :=
        nodupKeys_setK _ _ hnd
      exact length_setK_of_some _ hnd1 (lookupK_setK_self _ _ _)
  · intro oid s1 h1
    obtain ⟨ho1, hs1⟩ := createOffer_ok h1
    subst ho1
    refine ⟨?_, ?_⟩
    · intro hnone
      rw [hs1]
      exact length_setK_of_none _ hnone
    · intro off0 hnd hsome
      rw [hs1]
      exact length_setK_of_some _ hnd hsome

/-- The state after the owner's first offer on holding `(6, 0)` at price
2000. -/
def c6first : EngineState :=
  (nextState (createOffer (initState 0 1) 0 6 (genHoldingId 6 0) 1 1 2000 "m")).getD
    (initState 0 1)

/-- The state after re-creating the same offer with different shares and
metadata. -/
def c6second : EngineState :=
  (nextState (createOffer c6first 0 6 (genHoldingId 6 0) 3 2 2000 "n")).getD c6first

/-- The state after a further offer at a different price (1000). -/
def c6third : EngineState :=
  (nextState (createOffer c6second 0 6 (genHoldingId 6 0) 1 1 1000 "m")).getD c6second

/-- Witness for C6: re-creating the offer at the same `(publisher, holding,
price)` key leaves one stored offer holding the second call's data and does
not change the offer count; a different price gives a different id and adds
an offer. -/
theorem c6_witness :
    lookupK c6second.offers (genOfferId 0 (genHoldingId 6 0) 2000) =
      some (Offer.mk 0 6 (genHoldingId 6 0) 3 2 2000 "n") ∧
    c6second.offers.length = c6first.offers.length ∧
    (genOfferId 0 (genHoldingId 6 0) 2000 = genOfferId 0 (genHoldingId 6 0) 1000 ↔
      (0 = 0 ∧ genHoldingId 6 0 = genHoldingId 6 0 ∧ 2000 = 1000)) ∧
    c6third.offers.length = c6second.offers.length + 1 := by
  have h := c6_genOfferId_replace 0 0 (genHoldingId 6 0) (genHoldingId 6 0) 2000 1000
    (initState 0 1) 0 6 1 1 3 2 "m" "n"
  have h3 := h.2.2.1 (genOfferId 0 (genHoldingId 6 0) 2000) c6first
    (genOfferId 0 (genHoldingId 6 0) 2000) c6second (by simp [NodupKeys, initState]) rfl rfl
  have h4full := c6_genOfferId_replace 0 0 (genHoldingId 6 0) (genHoldingId 6 0) 1000 1000
    c6second 0 6 1 1 1 1 "m" "m"
  have h4 := (h4full.2.2.2 (genOfferId 0 (genHoldingId 6 0) 1000) c6third rfl).1 rfl
  exact ⟨h3.2.1, h3.2.2, h.2.1, h4⟩

/-- Claim C2 (amended): given a stored offer, `fulfillOffer` fails with
`SelfFulfillment` for the publisher, with `NoAccount` for a buyer without an
account, and with `InsufficientFunds` when the buyer's balance is below
`price * shares + OpsFee`; a buyer whose balance is at least
`price * shares + OpsFee` (e.g. after depositing `price + 2 * opsFee` in one
deposit, giving balance `price + opsFee` for a single-unit offer) fulfills
it, ending with balance `initialBalance - price * shares - opsFee`, the offer
removed, and the Treasury reduced by exactly `price * shares`. -/
theorem c2_fulfillOffer_amended (s : EngineState) (caller : HolderId) (oid : OfferId)
    (n : Nat) (off : Offer) (hoff : lookupK s.offers oid = some off) :
    (caller = off.publisher → fulfillOffer s caller oid n = .error .selfFulfillment) ∧
    (caller ≠ off.publisher → lookupK s.accounts caller = none →
      fulfillOffer s caller oid n = .error .noAccount) ∧
    (∀ bal, caller ≠ off.publisher → lookupK s.accounts caller = some bal →
      off.minSharesPerFill ≤ n → n ≤ off.sharesForSale →
      bal < off.price * n + s.opsFee →
      fulfillOffer s caller oid n = .error .insufficientFunds) ∧
    (∀ bal, caller ≠ off.publisher → lookupK s.accounts caller = some bal →
      off.minSharesPerFill ≤ n → n ≤ off.sharesForSale →
      off.price * n + s.opsFee ≤ bal →
      n ≤ (lookupK s.holdings off.holdingId).getD 0 →
      resVal (fulfillOffer s caller oid n) = some off ∧
      (nextState (fulfillOffer s caller oid n)).map (fun t => lookupK t.accounts caller) =
        some (some (bal - (off.price * n + s.opsFee))) ∧
      (nextState (fulfillOffer s caller oid n)).map (fun t => lookupK t.offers oid) =
        some none ∧
      (nextState (fulfillOffer s caller oid n)).map EngineState.treasury =
        some (s.treasury - off.price * n)) := by
  refine ⟨?_, ?_, ?_, ?_⟩
  · intro hself
    simp [fulfillOffer, hoff, hself]
  · intro hne hacc
    simp [fulfillOffer, hoff, hne, hacc]
  · intro bal hne hacc hmin hmax hlt
    have hfs : ¬ (n < off.minSharesPerFill ∨ off.sharesForSale < n) := by omega
    simp [fulfillOffer, hoff, hne, hacc, hfs, hlt]
  · intro bal hne hacc hmin hmax hge hsh
    have hfs : ¬ (n < off.minSharesPerFill ∨ off.sharesForSale < n) := by omega
    have hnf : ¬ (bal < off.price * n + s.opsFee) := by omega
    have hns : ¬ ((lookupK s.holdings off.holdingId).getD 0 < n) := by omega
    simp [fulfillOffer, hoff, hne, hacc, hfs, hnf, hns, resVal, nextState,
      lookupK_setK_self, lookupK_eraseK]

/-- The deployment with owner 0 and fee 1, after the owner mints asset 5
(supply 1) and publishes a single-unit offer on holding `(5, 0)` at price
100. -/
def c2base : EngineState :=
  runOps (initState 0 1)
    [Op.mint 0 5 1, Op.createOffer 0 5 (genHoldingId 5 0) 1 1 100 ""]

/-- The id of the offer published in `c2base`. -/
def c2oid : OfferId := genOfferId 0 (genHoldingId 5 0) 100

/-- `c2base` after buyer 7 deposits exactly `price + opsFee = 101`, ending
with balance 100. -/
def c2afterExactDeposit : EngineState :=
  (nextState (depositFunds c2base 7 nativeToken 101)).getD c2base

/-- `c2base` after buyer 7 instead deposits 102, ending with balance 101. -/
def c2afterLargerDeposit : EngineState :=
  (nextState (depositFunds c2base 7 nativeToken 102)).getD c2base

/-- Claim C2 counterexample: with `OpsFee = 1` and a stored single-unit offer
at price 100, a buyer who earlier deposited exactly `price + opsFee = 101`
(ending with balance 100) is rejected with `InsufficientFunds`, contradicting
the claim that such a buyer can fulfill the offer; moreover a buyer with
balance 101, which is below the claim's threshold
`price * shares + 2 * OpsFee = 102`, succeeds, contradicting the claim that
`fulfillOffer` fails whenever the balance is below that threshold. -/
theorem c2_counterexample :
    c2base.opsFee = 1 ∧
    lookupK c2base.offers c2oid = some (Offer.mk 0 5 (genHoldingId 5 0) 1 1 100 "") ∧
    lookupK c2base.accounts 7 = none ∧
    resVal (depositFunds c2base 7 nativeToken 101) = some (100, 100) ∧
    fulfillOffer c2afterExactDeposit 7 c2oid 1 = .error .insufficientFunds ∧
    lookupK c2afterLargerDeposit.accounts 7 = some 101 ∧
    101 < 100 * 1 + 2 * 1 ∧
    resVal (fulfillOffer c2afterLargerDeposit 7 c2oid 1) =
      some (Offer.mk 0 5 (genHoldingId 5 0) 1 1 100 "") := by
  exact ⟨rfl, rfl, rfl, rfl, rfl, rfl, by decide, rfl⟩

/-- Witness for the amended C2: on the concrete scenario the publisher is
rejected with `SelfFulfillment`, an account-less buyer with `NoAccount`, a
buyer with balance 100 with `InsufficientFunds`, and the buyer with balance
101 fulfills the offer, ending with balance 0, the offer removed, and the
Treasury reduced from 102 to 2 (exactly the price 100). -/
theorem c2_witness :
    fulfillOffer c2base 0 c2oid 1 = .error .selfFulfillment ∧
    fulfillOffer c2base 7 c2oid 1 = .error .noAccount ∧
    fulfillOffer c2afterExactDeposit 7 c2oid 1 = .error .insufficientFunds ∧
    resVal (fulfillOffer c2afterLargerDeposit 7 c2oid 1) =
      some (Offer.mk 0 5 (genHoldingId 5 0) 1 1 100 "") ∧
    (nextState (fulfillOffer c2afterLargerDeposit 7 c2oid 1)).map
      (fun t => lookupK t.accounts 7) = some (some 0) ∧
    (nextState (fulfillOffer c2afterLargerDeposit 7 c2oid 1)).map
      (fun t => lookupK t.offers c2oid) = some none ∧
    (nextState (fulfillOffer c2afterLargerDeposit 7 c2oid 1)).map EngineState.treasury =
      some 2 := by
  have h1 := c2_fulfillOffer_amended c2base 0 c2oid 1
    (Offer.mk 0 5 (genHoldingId 5 0) 1 1 100 "") rfl
  have h2 := c2_fulfillOffer_amended c2base 7 c2oid 1
    (Offer.mk 0 5 (genHoldingId 5 0) 1 1 100 "") rfl
  have h3 := c2_fulfillOffer_amended c2afterExactDeposit 7 c2oid 1
    (Offer.mk 0 5 (genHoldingId 5 0) 1 1 100 "") rfl
  have h4 := c2_fulfillOffer_amended c2afterLargerDeposit 7 c2oid 1
    (Offer.mk 0 5 (genHoldingId 5 0) 1 1 100 "") rfl
  have hs := h4.2.2.2 101 (by decide) rfl (by decide) (by decide) (by decide) (by decide)
  exact ⟨h1.1 rfl, h2.2.1 (by decide) rfl,
    h3.2.2.1 100 (by decide) rfl (by decide) (by decide) (by decide),
    hs.1, hs.2.1, hs.2.2.1, hs.2.2.2⟩

/-- Claim C10: every successful `fulfillOffer` removes the fulfilled offer
entirely from the offer book — there is no path that leaves the offer stored
with a reduced `sharesForSale` — so an immediately subsequent `fulfillOffer`
or `cancelOffer` on the same id fails with `OfferNotFound`. -/
theorem c10_fulfill_removes_offer (s : EngineState) (caller : HolderId) (oid : OfferId)
    (n : Nat) (off : Offer) (s' : EngineState)
    (h : fulfillOffer s caller oid n = .ok (off, s')) :
    lookupK s'.offers oid = none ∧
    (∀ c2 n2, fulfillOffer s' c2 oid n2 = .error .offerNotFound) ∧
    (∀ c2, cancelOffer s' c2 oid = .error .offerNotFound) := by
  have hoffers : s'.offers = eraseK oid s.offers := by
    simp only [fulfillOffer] at h
    split at h
    · exact absurd h (by simp)
    · split at h
      · exact absurd h (by simp)
      · split at h
        · exact absurd h (by simp)
        · split at h
          · exact absurd h (by simp)
          · split at h
            · exact absurd h (by simp)
            · split at h
              · exact absurd h (by simp)
              · simp only [Except.ok.injEq, Prod.mk.injEq] at h
                rw [← h.2]
  have hnone : lookupK s'.offers oid = none := by
    rw [hoffers]
    exact lookupK_eraseK oid s.offers
  refine ⟨hnone, ?_, ?_⟩
  · intro c2 n2
    simp [fulfillOffer, hnone]
  · intro c2
    simp [cancelOffer, hnone]

/-- The deployment with owner 0 and fee 1, after minting asset 9, publishing
a single-unit offer at price 50, and buyer 7 depositing 52 (balance 51). -/
def c10base : EngineState :=
  runOps (initState 0 1)
    [Op.mint 0 9 1, Op.createOffer 0 9 (genHoldingId 9 0) 1 1 50 "x",
     Op.depositFunds 7 nativeToken 52]

/-- The id of the offer published in `c10base`. -/
def c10oid : OfferId := genOfferId 0 (genHoldingId 9 0) 50

/-- `c10base` after buyer 7 fulfills the offer. -/
def c10next : EngineState := (nextState (fulfillOffer c10base 7 c10oid 1)).getD c10base

/-- Witness for C10: the concrete fulfillment removes the offer, and both a
repeated fulfillment and a cancellation on the same id are rejected with
`OfferNotFound`. -/
theorem c10_witness :
    fulfillOffer c10base 7 c10oid 1 =
      .ok (Offer.mk 0 9 (genHoldingId 9 0) 1 1 50 "x", c10next) ∧
    lookupK c10next.offers c10oid = none ∧
    fulfillOffer c10next 8 c10oid 1 = .error .offerNotFound ∧
    cancelOffer c10next 0 c10oid = .error .offerNotFound := by
  have h := c10_fulfill_removes_offer c10base 7 c10oid 1
    (Offer.mk 0 9 (genHoldingId 9 0) 1 1 50 "x") c10next rfl
  exact ⟨rfl, h.1, h.2.1 8 1, h.2.2 0⟩

end Ataulfo
